import Mathlib

set_option maxRecDepth 100000
set_option maxHeartbeats 1000000

/-!
Verification of the maze game core (src/main.rs): grid construction,
movement, win detection, BFS shortest path, path display toggling and reset.
The Rust code is shallowly embedded: the mutable `MazeGame` struct becomes a
record passed explicitly, `usize` becomes `Nat`, `i32` becomes `Int`,
panicking `Vec` indexing becomes total `List.getD`/`List.set` access (reads
out of range yield `Cell.Wall`, writes out of range are dropped; no reachable
execution of the source hits either case), and the two `while` loops of the
breadth-first search run on explicit fuel of `width * height + 1`, enough for
every state the search can reach, returning `none` on exhaustion exactly
where the Rust code would still be looping.
-/

/-- Cell kinds of the maze, mirroring `enum Cell` in src/main.rs. -/
inductive Cell where
  | Empty
  | Wall
  | Start
  | End
  | Path
  | Player
deriving DecidableEq, Repr

/-- Grid coordinates, mirroring `struct Position { x: usize, y: usize }`. -/
structure Position where
  x : Nat
  y : Nat
deriving DecidableEq, Repr

/-- The game state, mirroring `struct MazeGame` field for field. -/
structure MazeGame where
  grid : List (List Cell)
  player_pos : Position
  start_pos : Position
  end_pos : Position
  width : Nat
  height : Nat
  show_path : Bool
  path_positions : List Position
  game_won : Bool
deriving DecidableEq, Repr

/-- Read `grid[y][x]`; out-of-range reads (never reached by the source's
executions) default to `Cell.Wall`. -/
def cellAt (grid : List (List Cell)) (y x : Nat) : Cell :=
  (grid.getD y []).getD x Cell.Wall

/-- Write `grid[y][x] = c`; out-of-range writes are dropped. -/
def setCell (grid : List (List Cell)) (y x : Nat) (c : Cell) : List (List Cell) :=
  grid.set y ((grid.getD y []).set x c)

/-- The predefined maze layout string array of `MazeGame::new`. -/
def maze_layout : List String :=
  [ "####################",
    "#S                 #",
    "# ##### ##### ##### #",
    "# #   # #   # #   # #",
    "# # ### # ### # ### #",
    "# #   # #   # #   # #",
    "# ##### ##### ##### #",
    "# #   #     #     # #",
    "# # # ##### # ##### #",
    "# # #     # #     # #",
    "# # ##### # ##### # #",
    "# #     # #     # # #",
    "# ##### # ##### # # #",
    "#       #       #   E#",
    "####################" ]

/-- The `match ch` of the layout overlay in `MazeGame::new`. -/
def overlayChar (ch : Char) : Cell :=
  if ch = '#' then Cell.Wall
  else if ch = 'S' then Cell.Start
  else if ch = 'E' then Cell.End
  else Cell.Empty

/-- `vec![vec![Cell::Empty; width]; height]`. -/
def initGrid (width height : Nat) : List (List Cell) :=
  List.replicate height (List.replicate width Cell.Empty)

/-- The two border-wall loops of `MazeGame::new`. -/
def setBorders (width height : Nat) (grid : List (List Cell)) : List (List Cell) :=
  let g1 := (List.range height).foldl
    (fun g i => setCell (setCell g i 0 Cell.Wall) i (width - 1) Cell.Wall) grid
  (List.range width).foldl
    (fun g j => setCell (setCell g 0 j Cell.Wall) (height - 1) j Cell.Wall) g1

/-- The layout overlay loop of `MazeGame::new`: each character is written
only when `y < height && x < width`. -/
def applyLayout (width height : Nat) (grid : List (List Cell)) : List (List Cell) :=
  maze_layout.enum.foldl
    (fun g yl =>
      yl.2.toList.enum.foldl
        (fun g xc =>
          if yl.1 < height ∧ xc.1 < width then setCell g yl.1 xc.1 (overlayChar xc.2)
          else g)
        g)
    grid

/-- `MazeGame::update_player_position`: clear the old player cell (back to
Start if it is the start position, else Empty), write Player at the new
position, move the stored player position there, and set the won flag when
the new position is the end position. -/
def MazeGame.update_player_position (g : MazeGame) (new_pos : Position) : MazeGame :=
  let grid1 :=
    if g.player_pos = g.start_pos then
      setCell g.grid g.player_pos.y g.player_pos.x Cell.Start
    else
      setCell g.grid g.player_pos.y g.player_pos.x Cell.Empty
  let grid2 := setCell grid1 new_pos.y new_pos.x Cell.Player
  let g2 : MazeGame := { g with grid := grid2, player_pos := new_pos }
  if new_pos = g.end_pos then { g2 with game_won := true } else g2

/-- `MazeGame::new`: empty grid, border walls, layout overlay, fixed start
`(1,1)` and end `(width-2, height-2)`, then `update_player_position(start)`. -/
def MazeGame.new (width height : Nat) : MazeGame :=
  let grid0 := initGrid width height
  let grid1 := setBorders width height grid0
  let grid2 := applyLayout width height grid1
  let start_pos : Position := ⟨1, 1⟩
  let end_pos : Position := ⟨width - 2, height - 2⟩
  let grid3 := setCell grid2 start_pos.y start_pos.x Cell.Start
  let grid4 := setCell grid3 end_pos.y end_pos.x Cell.End
  let game : MazeGame :=
    { grid := grid4
      player_pos := start_pos
      start_pos := start_pos
      end_pos := end_pos
      width := width
      height := height
      show_path := false
      path_positions := []
      game_won := false }
  game.update_player_position start_pos

/-- `MazeGame::can_move`: false out of bounds or on a Wall, true otherwise. -/
def MazeGame.can_move (g : MazeGame) (pos : Position) : Bool :=
  if pos.x ≥ g.width ∨ pos.y ≥ g.height then false
  else
    match cellAt g.grid pos.y pos.x with
    | Cell.Wall => false
    | _ => true

/-- `MazeGame::move_player`: the returned Bool of the Rust method paired with
the state after the call. -/
def MazeGame.move_player (g : MazeGame) (dx dy : Int) : Bool × MazeGame :=
  if g.game_won then (false, g)
  else
    let new_x : Int := (g.player_pos.x : Int) + dx
    let new_y : Int := (g.player_pos.y : Int) + dy
    if 0 ≤ new_x ∧ 0 ≤ new_y then
      let new_pos : Position := ⟨new_x.toNat, new_y.toNat⟩
      if new_pos.x < g.width ∧ new_pos.y < g.height ∧ g.can_move new_pos then
        (true, g.update_player_position new_pos)
      else (false, g)
    else (false, g)

/-- `MazeGame::has_won`. -/
def MazeGame.has_won (g : MazeGame) : Bool :=
  g.game_won

/-- The direction array of `MazeGame::find_shortest_path`: up, down, left,
right, in the source's order. -/
def directions : List (Int × Int) :=
  [(0, -1), (0, 1), (-1, 0), (1, 0)]

/-- Read `parent[y][x]` of the BFS parent table. -/
def parentAt (parent : List (List (Option Position))) (y x : Nat) : Option Position :=
  (parent.getD y []).getD x none

/-- Write `parent[y][x] = v`. -/
def setParent (parent : List (List (Option Position))) (y x : Nat) (v : Option Position) :
    List (List (Option Position)) :=
  parent.set y ((parent.getD y []).set x v)

/-- The inner `for` loop of the BFS: try the four directions from `current`,
enqueueing each in-bounds, passable, unvisited neighbour and recording its
parent.  The grid is consulted only through `passable`, which
`MazeGame.find_shortest_path` instantiates with `MazeGame.can_move`. -/
def bfsExpand (width height : Nat) (passable : Position → Bool) (current : Position)
    (queue visited : List Position) (parent : List (List (Option Position))) :
    List Position × List Position × List (List (Option Position)) :=
  directions.foldl
    (fun st d =>
      match st with
      | (q, v, pa) =>
        let x : Int := (current.x : Int) + d.1
        let y : Int := (current.y : Int) + d.2
        if 0 ≤ x ∧ 0 ≤ y then
          let new_pos : Position := ⟨x.toNat, y.toNat⟩
          if new_pos.x < width ∧ new_pos.y < height ∧ passable new_pos = true ∧
              new_pos ∉ v then
            (q ++ [new_pos], new_pos :: v, setParent pa new_pos.y new_pos.x (some current))
          else st
        else st)
    (queue, visited, parent)

/-- The path-reconstruction loop of the BFS: walk parent links from `step`
back to the start, accumulating the positions already in reversed order (the
Rust code pushes then reverses; consing onto `acc` yields the same list).
`none` on a missing parent link or on fuel exhaustion, neither of which a
run of the source can produce. -/
def rebuildPath (startP : Position) (parent : List (List (Option Position))) :
    Nat → Position → List Position → Option (List Position)
  | fuel, step, acc =>
    if step = startP then some acc
    else
      match fuel with
      | 0 => none
      | f + 1 =>
        match parentAt parent step.y step.x with
        | none => none
        | some p => rebuildPath startP parent f p (step :: acc)

/-- The outer `while let Some(current) = queue.pop_front()` loop of the BFS. -/
def bfsLoop (width height : Nat) (startP endP : Position) (passable : Position → Bool) :
    Nat → List Position → List Position → List (List (Option Position)) →
    Option (List Position)
  | 0, _, _, _ => none
  | _ + 1, [], _, _ => none
  | fuel + 1, current :: rest, visited, parent =>
    if current = endP then
      rebuildPath startP parent (width * height + 1) current []
    else
      match bfsExpand width height passable current rest visited parent with
      | (q, v, pa) => bfsLoop width height startP endP passable fuel q v pa

/-- `MazeGame::find_shortest_path`: BFS from the start position to the end
position, queue and visited set seeded with the start, parent table of
`None`s sized `height × width`. -/
def MazeGame.find_shortest_path (g : MazeGame) : Option (List Position) :=
  bfsLoop g.width g.height g.start_pos g.end_pos (fun p => g.can_move p)
    (g.width * g.height + 1) [g.start_pos] [g.start_pos]
    (List.replicate g.height (List.replicate g.width none))

/-- `MazeGame::display_path`: store the found path and raise the flag; a
failed search changes nothing. -/
def MazeGame.display_path (g : MazeGame) : MazeGame :=
  match g.find_shortest_path with
  | some path => { g with path_positions := path, show_path := true }
  | none => g

/-- `MazeGame::clear_path`. -/
def MazeGame.clear_path (g : MazeGame) : MazeGame :=
  { g with show_path := false, path_positions := [] }

/-- `MazeGame::toggle_path`. -/
def MazeGame.toggle_path (g : MazeGame) : MazeGame :=
  if g.show_path then g.clear_path else g.display_path

/-- `MazeGame::reset_game`: `*self = MazeGame::new(self.width, self.height)`. -/
def MazeGame.reset_game (g : MazeGame) : MazeGame :=
  MazeGame.new g.width g.height

/-- The default game the program constructs (`main` calls `new(20, 15)`). -/
def defaultGame : MazeGame :=
  MazeGame.new 20 15

/-- The operations a front end can invoke on a live game. -/
inductive Op where
  | mv (dx dy : Int)
  | toggle
  | reset
deriving DecidableEq, Repr

/-- Run one operation, discarding `move_player`'s Bool result. -/
def applyOp : Op → MazeGame → MazeGame
  | Op.mv dx dy, g => (g.move_player dx dy).2
  | Op.toggle, g => g.toggle_path
  | Op.reset, g => g.reset_game

/-- States reachable from the default game by any sequence of operations. -/
inductive Reach : MazeGame → Prop where
  | base : Reach defaultGame
  | step {g : MazeGame} (op : Op) : Reach g → Reach (applyOp op g)

/-- Move / toggle only (no reset), used for the reset claim. -/
inductive OpMT where
  | mv (dx dy : Int)
  | toggle
deriving DecidableEq, Repr

/-- Run one reset-free operation. -/
def applyOpMT : OpMT → MazeGame → MazeGame
  | OpMT.mv dx dy, g => (g.move_player dx dy).2
  | OpMT.toggle, g => g.toggle_path

/-- States reachable from `MazeGame.new w h` by moves and toggles alone. -/
inductive ReachMT (w h : Nat) : MazeGame → Prop where
  | base : ReachMT w h (MazeGame.new w h)
  | step {g : MazeGame} (op : OpMT) : ReachMT w h g → ReachMT w h (applyOpMT op g)

/-- The grid of the default game as a literal (15 rows of 20 cells). -/
def defaultGrid : List (List Cell) :=
  [
    [Cell.Wall, Cell.Wall, Cell.Wall, Cell.Wall, Cell.Wall, Cell.Wall, Cell.Wall, Cell.Wall, Cell.Wall, Cell.Wall, Cell.Wall, Cell.Wall, Cell.Wall, Cell.Wall, Cell.Wall, Cell.Wall, Cell.Wall, Cell.Wall, Cell.Wall, Cell.Wall],
    [Cell.Wall, Cell.Player, Cell.Empty, Cell.Empty, Cell.Empty, Cell.Empty, Cell.Empty, Cell.Empty, Cell.Empty, Cell.Empty, Cell.Empty, Cell.Empty, Cell.Empty, Cell.Empty, Cell.Empty, Cell.Empty, Cell.Empty, Cell.Empty, Cell.Empty, Cell.Wall],
    [Cell.Wall, Cell.Empty, Cell.Wall, Cell.Wall, Cell.Wall, Cell.Wall, Cell.Wall, Cell.Empty, Cell.Wall, Cell.Wall, Cell.Wall, Cell.Wall, Cell.Wall, Cell.Empty, Cell.Wall, Cell.Wall, Cell.Wall, Cell.Wall, Cell.Wall, Cell.Empty],
    [Cell.Wall, Cell.Empty, Cell.Wall, Cell.Empty, Cell.Empty, Cell.Empty, Cell.Wall, Cell.Empty, Cell.Wall, Cell.Empty, Cell.Empty, Cell.Empty, Cell.Wall, Cell.Empty, Cell.Wall, Cell.Empty, Cell.Empty, Cell.Empty, Cell.Wall, Cell.Empty],
    [Cell.Wall, Cell.Empty, Cell.Wall, Cell.Empty, Cell.Wall, Cell.Wall, Cell.Wall, Cell.Empty, Cell.Wall, Cell.Empty, Cell.Wall, Cell.Wall, Cell.Wall, Cell.Empty, Cell.Wall, Cell.Empty, Cell.Wall, Cell.Wall, Cell.Wall, Cell.Empty],
    [Cell.Wall, Cell.Empty, Cell.Wall, Cell.Empty, Cell.Empty, Cell.Empty, Cell.Wall, Cell.Empty, Cell.Wall, Cell.Empty, Cell.Empty, Cell.Empty, Cell.Wall, Cell.Empty, Cell.Wall, Cell.Empty, Cell.Empty, Cell.Empty, Cell.Wall, Cell.Empty],
    [Cell.Wall, Cell.Empty, Cell.Wall, Cell.Wall, Cell.Wall, Cell.Wall, Cell.Wall, Cell.Empty, Cell.Wall, Cell.Wall, Cell.Wall, Cell.Wall, Cell.Wall, Cell.Empty, Cell.Wall, Cell.Wall, Cell.Wall, Cell.Wall, Cell.Wall, Cell.Empty],
    [Cell.Wall, Cell.Empty, Cell.Wall, Cell.Empty, Cell.Empty, Cell.Empty, Cell.Wall, Cell.Empty, Cell.Empty, Cell.Empty, Cell.Empty, Cell.Empty, Cell.Wall, Cell.Empty, Cell.Empty, Cell.Empty, Cell.Empty, Cell.Empty, Cell.Wall, Cell.Empty],
    [Cell.Wall, Cell.Empty, Cell.Wall, Cell.Empty, Cell.Wall, Cell.Empty, Cell.Wall, Cell.Wall, Cell.Wall, Cell.Wall, Cell.Wall, Cell.Empty, Cell.Wall, Cell.Empty, Cell.Wall, Cell.Wall, Cell.Wall, Cell.Wall, Cell.Wall, Cell.Empty],
    [Cell.Wall, Cell.Empty, Cell.Wall, Cell.Empty, Cell.Wall, Cell.Empty, Cell.Empty, Cell.Empty, Cell.Empty, Cell.Empty, Cell.Wall, Cell.Empty, Cell.Wall, Cell.Empty, Cell.Empty, Cell.Empty, Cell.Empty, Cell.Empty, Cell.Wall, Cell.Empty],
    [Cell.Wall, Cell.Empty, Cell.Wall, Cell.Empty, Cell.Wall, Cell.Wall, Cell.Wall, Cell.Wall, Cell.Wall, Cell.Empty, Cell.Wall, Cell.Empty, Cell.Wall, Cell.Wall, Cell.Wall, Cell.Wall, Cell.Wall, Cell.Empty, Cell.Wall, Cell.Empty],
    [Cell.Wall, Cell.Empty, Cell.Wall, Cell.Empty, Cell.Empty, Cell.Empty, Cell.Empty, Cell.Empty, Cell.Wall, Cell.Empty, Cell.Wall, Cell.Empty, Cell.Empty, Cell.Empty, Cell.Empty, Cell.Empty, Cell.Wall, Cell.Empty, Cell.Wall, Cell.Empty],
    [Cell.Wall, Cell.Empty, Cell.Wall, Cell.Wall, Cell.Wall, Cell.Wall, Cell.Wall, Cell.Empty, Cell.Wall, Cell.Empty, Cell.Wall, Cell.Wall, Cell.Wall, Cell.Wall, Cell.Wall, Cell.Empty, Cell.Wall, Cell.Empty, Cell.Wall, Cell.Empty],
    [Cell.Wall, Cell.Empty, Cell.Empty, Cell.Empty, Cell.Empty, Cell.Empty, Cell.Empty, Cell.Empty, Cell.Wall, Cell.Empty, Cell.Empty, Cell.Empty, Cell.Empty, Cell.Empty, Cell.Empty, Cell.Empty, Cell.Wall, Cell.Empty, Cell.End, Cell.Empty],
    [Cell.Wall, Cell.Wall, Cell.Wall, Cell.Wall, Cell.Wall, Cell.Wall, Cell.Wall, Cell.Wall, Cell.Wall, Cell.Wall, Cell.Wall, Cell.Wall, Cell.Wall, Cell.Wall, Cell.Wall, Cell.Wall, Cell.Wall, Cell.Wall, Cell.Wall, Cell.Wall]]

/-- The default game as a literal record: the one evaluation of
`MazeGame.new 20 15`, against which the heavier computations below run. -/
def defaultGameLit : MazeGame :=
  { grid := defaultGrid
    player_pos := ⟨1, 1⟩
    start_pos := ⟨1, 1⟩
    end_pos := ⟨18, 13⟩
    width := 20
    height := 15
    show_path := false
    path_positions := []
    game_won := false }

/-- Constructing the default game yields exactly the literal record. -/
theorem defaultGame_eq : defaultGame = defaultGameLit := by decide

/-- The path the BFS finds on the default game (29 positions). -/
def dPath : List Position :=
  [⟨2, 1⟩, ⟨3, 1⟩, ⟨4, 1⟩, ⟨5, 1⟩, ⟨6, 1⟩, ⟨7, 1⟩, ⟨8, 1⟩, ⟨9, 1⟩, ⟨10, 1⟩,
   ⟨11, 1⟩, ⟨12, 1⟩, ⟨13, 1⟩, ⟨13, 2⟩, ⟨13, 3⟩, ⟨13, 4⟩, ⟨13, 5⟩, ⟨13, 6⟩,
   ⟨13, 7⟩, ⟨13, 8⟩, ⟨13, 9⟩, ⟨14, 9⟩, ⟨15, 9⟩, ⟨16, 9⟩, ⟨17, 9⟩, ⟨17, 10⟩,
   ⟨17, 11⟩, ⟨17, 12⟩, ⟨17, 13⟩, ⟨18, 13⟩]

/-- The BFS on the default game returns exactly `dPath`. -/
theorem find_default_eq : defaultGame.find_shortest_path = some dPath := by
  decide!

/-- Number of grid cells equal to `c`. -/
def countCell (grid : List (List Cell)) (c : Cell) : Nat :=
  (grid.map (fun row => row.countP (fun z => z == c))).sum

/-- C1 (code bug): `MazeGame::new(20, 15)` leaves the border cell
`(x = 19, y = 2)` of the right-hand column `width - 1` as `Empty`, not
`Wall`: rows 2..13 of `maze_layout` are 21-22 characters wide, so their
column-19 character, a space, overwrites the border wall that the border
loops had placed. -/
theorem claim1_border_gap :
    cellAt (MazeGame.new 20 15).grid 2 (20 - 1) = Cell.Empty ∧ Cell.Empty ≠ Cell.Wall := by
  decide!

/-- C2 counterexample: immediately after `MazeGame::new(20, 15)` no cell at
all equals `Cell::Start` — `update_player_position(start_pos)` overwrites
the start cell with `Cell::Player` — so "exactly one cell equals Start" is
false. -/
theorem claim2_counterexample :
    ¬ countCell (MazeGame.new 20 15).grid Cell.Start = 1 := by
  decide!

/-- C2 (amended): immediately after `MazeGame::new(20, 15)` exactly one cell
equals `Cell::End` and no cell equals `Cell::Start`; the start cell `(1,1)`
holds `Cell::Player` (the player marker overlays the start). -/
theorem claim2_start_end_counts :
    countCell (MazeGame.new 20 15).grid Cell.End = 1 ∧
    countCell (MazeGame.new 20 15).grid Cell.Start = 0 ∧
    cellAt (MazeGame.new 20 15).grid 1 1 = Cell.Player := by
  decide!

/-- C7: `can_move` returns false exactly on out-of-bounds positions and
Wall cells, and returns true on every in-bounds cell of the five non-Wall
kinds. -/
theorem claim7_can_move : ∀ (g : MazeGame) (pos : Position),
    (g.can_move pos = false ↔
      pos.x ≥ g.width ∨ pos.y ≥ g.height ∨ cellAt g.grid pos.y pos.x = Cell.Wall) ∧
    (pos.x < g.width → pos.y < g.height →
      (cellAt g.grid pos.y pos.x = Cell.Empty ∨ cellAt g.grid pos.y pos.x = Cell.Start ∨
       cellAt g.grid pos.y pos.x = Cell.End ∨ cellAt g.grid pos.y pos.x = Cell.Path ∨
       cellAt g.grid pos.y pos.x = Cell.Player) →
      g.can_move pos = true) := by
  intro g pos
  unfold MazeGame.can_move
  by_cases hb : pos.x ≥ g.width ∨ pos.y ≥ g.height
  · constructor
    · simp only [hb, if_true, true_iff]
      rcases hb with hb | hb
      · exact Or.inl hb
      · exact Or.inr (Or.inl hb)
    · intro hx hy _
      rcases hb with hb | hb
      · omega
      · omega
  · push_neg at hb
    constructor
    · cases hcell : cellAt g.grid pos.y pos.x <;>
        simp [hcell, hb.1, hb.2]
    · intro _ _ hk
      cases hcell : cellAt g.grid pos.y pos.x <;>
        simp [hcell, hb.1, hb.2] <;> simp [hcell] at hk

/-- C4: `move_player` returns false and leaves the whole state unchanged
whenever the game is already won, the target coordinates would be negative,
the target is out of bounds, or the target cell is a Wall. -/
theorem claim4_move_rejected (g : MazeGame) (dx dy : Int)
    (h : g.game_won = true ∨
      (g.player_pos.x : Int) + dx < 0 ∨ (g.player_pos.y : Int) + dy < 0 ∨
      g.width ≤ ((g.player_pos.x : Int) + dx).toNat ∨
      g.height ≤ ((g.player_pos.y : Int) + dy).toNat ∨
      cellAt g.grid ((g.player_pos.y : Int) + dy).toNat
        ((g.player_pos.x : Int) + dx).toNat = Cell.Wall) :
    g.move_player dx dy = (false, g) := by
  unfold MazeGame.move_player
  rcases h with h | h | h | h | h | h
  · simp [h]
  · by_cases hw : g.game_won
    · simp [hw]
    · simp only [hw, if_false]
      have : ¬ (0 ≤ (g.player_pos.x : Int) + dx ∧ 0 ≤ (g.player_pos.y : Int) + dy) := by
        intro hc
        omega
      simp [this]
  · by_cases hw : g.game_won
    · simp [hw]
    · simp only [hw, if_false]
      have : ¬ (0 ≤ (g.player_pos.x : Int) + dx ∧ 0 ≤ (g.player_pos.y : Int) + dy) := by
        intro hc
        omega
      simp [this]
  · by_cases hw : g.game_won
    · simp [hw]
    · simp only [hw, if_false]
      by_cases hnn : 0 ≤ (g.player_pos.x : Int) + dx ∧ 0 ≤ (g.player_pos.y : Int) + dy
      · simp only [hnn, if_true]
        have : ¬ (((g.player_pos.x : Int) + dx).toNat < g.width ∧
            ((g.player_pos.y : Int) + dy).toNat < g.height ∧
            g.can_move ⟨((g.player_pos.x : Int) + dx).toNat,
              ((g.player_pos.y : Int) + dy).toNat⟩ = true) := by
          intro hc
          omega
        simp [this]
      · simp [hnn]
  · by_cases hw : g.game_won
    · simp [hw]
    · simp only [hw, if_false]
      by_cases hnn : 0 ≤ (g.player_pos.x : Int) + dx ∧ 0 ≤ (g.player_pos.y : Int) + dy
      · simp only [hnn, if_true]
        have : ¬ (((g.player_pos.x : Int) + dx).toNat < g.width ∧
            ((g.player_pos.y : Int) + dy).toNat < g.height ∧
            g.can_move ⟨((g.player_pos.x : Int) + dx).toNat,
              ((g.player_pos.y : Int) + dy).toNat⟩ = true) := by
          intro hc
          omega
        simp [this]
      · simp [hnn]
  · by_cases hw : g.game_won
    · simp [hw]
    · simp only [hw, if_false]
      by_cases hnn : 0 ≤ (g.player_pos.x : Int) + dx ∧ 0 ≤ (g.player_pos.y : Int) + dy
      · simp only [hnn, if_true]
        have hcm : g.can_move ⟨((g.player_pos.x : Int) + dx).toNat,
            ((g.player_pos.y : Int) + dy).toNat⟩ = false := by
          unfold MazeGame.can_move
          by_cases hob : ((g.player_pos.x : Int) + dx).toNat ≥ g.width ∨
              ((g.player_pos.y : Int) + dy).toNat ≥ g.height
          · simp [hob]
          · simp only [hob, if_false]
            simp [h]
        have : ¬ (((g.player_pos.x : Int) + dx).toNat < g.width ∧
            ((g.player_pos.y : Int) + dy).toNat < g.height ∧
            g.can_move ⟨((g.player_pos.x : Int) + dx).toNat,
              ((g.player_pos.y : Int) + dy).toNat⟩ = true) := by
          intro hc
          rw [hcm] at hc
          exact absurd hc.2.2 (by simp)
        simp [this]
      · simp [hnn]

/-- C4 witness: from the freshly constructed default game, moving up from
`(1,1)` targets the Wall cell `(1,0)`, so the move is rejected and the state
is unchanged. -/
theorem claim4_witness : defaultGame.move_player 0 (-1) = (false, defaultGame) :=
  claim4_move_rejected defaultGame 0 (-1)
    (Or.inr (Or.inr (Or.inr (Or.inr (Or.inr (by decide!))))))

/-- Spec-side: `q` is exactly one unit step from `p` in one cardinal
direction. -/
def unitStep (p q : Position) : Prop :=
  (q.x = p.x + 1 ∧ q.y = p.y) ∨ (p.x = q.x + 1 ∧ q.y = p.y) ∨
  (q.y = p.y + 1 ∧ q.x = p.x) ∨ (p.y = q.y + 1 ∧ q.x = p.x)

instance unitStepDecidable (p q : Position) : Decidable (unitStep p q) :=
  inferInstanceAs (Decidable
    ((q.x = p.x + 1 ∧ q.y = p.y) ∨ (p.x = q.x + 1 ∧ q.y = p.y) ∨
     (q.y = p.y + 1 ∧ q.x = p.x) ∨ (p.y = q.y + 1 ∧ q.x = p.x)))

/-- Spec-side: a cell a walk may stand on, in bounds and not a Wall. -/
def specPassable (g : MazeGame) (p : Position) : Prop :=
  p.x < g.width ∧ p.y < g.height ∧ cellAt g.grid p.y p.x ≠ Cell.Wall

instance specPassableDecidable (g : MazeGame) (p : Position) :
    Decidable (specPassable g p) :=
  inferInstanceAs (Decidable
    (p.x < g.width ∧ p.y < g.height ∧ cellAt g.grid p.y p.x ≠ Cell.Wall))

/-- All 300 positions of the default 20 × 15 grid. -/
def allCells : List Position :=
  (List.range 15).bind (fun y => (List.range 20).map (fun x => ⟨x, y⟩))

/-- The candidate unit-step neighbours of a position. -/
def neighborsOf (p : Position) : List Position :=
  [⟨p.x + 1, p.y⟩, ⟨p.x, p.y + 1⟩] ++
    (if 0 < p.x then [⟨p.x - 1, p.y⟩] else []) ++
    (if 0 < p.y then [⟨p.x, p.y - 1⟩] else [])

/-- BFS distances (unit steps) from the start `(1,1)` of the default maze;
unreachable or Wall cells carry the sentinel 1000.  A certificate for the
lower bound on walk lengths, checked cell-by-cell in `dist_local`. -/
def distTable : List (List Nat) :=
  [
    [1000, 1000, 1000, 1000, 1000, 1000, 1000, 1000, 1000, 1000, 1000, 1000, 1000, 1000, 1000, 1000, 1000, 1000, 1000, 1000],
    [1000, 0, 1, 2, 3, 4, 5, 6, 7, 8, 9, 10, 11, 12, 13, 14, 15, 16, 17, 1000],
    [1000, 1, 1000, 1000, 1000, 1000, 1000, 7, 1000, 1000, 1000, 1000, 1000, 13, 1000, 1000, 1000, 1000, 1000, 41],
    [1000, 2, 1000, 1000, 1000, 1000, 1000, 8, 1000, 1000, 1000, 1000, 1000, 14, 1000, 1000, 1000, 1000, 1000, 40],
    [1000, 3, 1000, 1000, 1000, 1000, 1000, 9, 1000, 1000, 1000, 1000, 1000, 15, 1000, 1000, 1000, 1000, 1000, 39],
    [1000, 4, 1000, 1000, 1000, 1000, 1000, 10, 1000, 1000, 1000, 1000, 1000, 16, 1000, 1000, 1000, 1000, 1000, 38],
    [1000, 5, 1000, 1000, 1000, 1000, 1000, 11, 1000, 1000, 1000, 1000, 1000, 17, 1000, 1000, 1000, 1000, 1000, 37],
    [1000, 6, 1000, 28, 29, 30, 1000, 12, 13, 14, 15, 16, 1000, 18, 19, 20, 21, 22, 1000, 36],
    [1000, 7, 1000, 27, 1000, 31, 1000, 1000, 1000, 1000, 1000, 17, 1000, 19, 1000, 1000, 1000, 1000, 1000, 35],
    [1000, 8, 1000, 26, 1000, 32, 33, 34, 35, 36, 1000, 18, 1000, 20, 21, 22, 23, 24, 1000, 34],
    [1000, 9, 1000, 25, 1000, 1000, 1000, 1000, 1000, 35, 1000, 19, 1000, 1000, 1000, 1000, 1000, 25, 1000, 33],
    [1000, 10, 1000, 24, 23, 22, 21, 20, 1000, 34, 1000, 20, 21, 22, 23, 24, 1000, 26, 1000, 32],
    [1000, 11, 1000, 1000, 1000, 1000, 1000, 19, 1000, 33, 1000, 1000, 1000, 1000, 1000, 25, 1000, 27, 1000, 31],
    [1000, 12, 13, 14, 15, 16, 17, 18, 1000, 32, 31, 30, 29, 28, 27, 26, 1000, 28, 29, 30],
    [1000, 1000, 1000, 1000, 1000, 1000, 1000, 1000, 1000, 1000, 1000, 1000, 1000, 1000, 1000, 1000, 1000, 1000, 1000, 1000]]

/-- Look up the distance certificate at a position. -/
def distAt (p : Position) : Nat :=
  (distTable.getD p.y []).getD p.x 1000

theorem defaultGame_width : defaultGame.width = 20 := rfl

theorem defaultGame_height : defaultGame.height = 15 := rfl

theorem defaultGame_start : defaultGame.start_pos = ⟨1, 1⟩ := rfl

theorem defaultGame_end : defaultGame.end_pos = ⟨18, 13⟩ := rfl

/-- Every in-bounds position of the default grid is listed in `allCells`. -/
theorem mem_allCells {p : Position} (hx : p.x < 20) (hy : p.y < 15) :
    p ∈ allCells := by
  obtain ⟨px, py⟩ := p
  unfold allCells
  rw [List.mem_bind]
  refine ⟨py, List.mem_range.mpr hy, ?_⟩
  rw [List.mem_map]
  exact ⟨px, List.mem_range.mpr hx, rfl⟩

/-- A unit-step neighbour is among the candidate neighbours. -/
theorem mem_neighborsOf {p q : Position} (h : unitStep p q) : q ∈ neighborsOf p := by
  obtain ⟨px, py⟩ := p
  obtain ⟨qx, qy⟩ := q
  simp only [unitStep] at h
  simp only [neighborsOf, List.mem_append, List.mem_cons, List.not_mem_nil, or_false]
  rcases h with ⟨h1, h2⟩ | ⟨h1, h2⟩ | ⟨h1, h2⟩ | ⟨h1, h2⟩
  · subst h1
    subst h2
    simp
  · subst h2
    have hpos : 0 < px := by omega
    have hqx : qx = px - 1 := by omega
    subst hqx
    rw [if_pos hpos]
    simp
  · subst h1
    subst h2
    simp
  · subst h2
    have hpos : 0 < py := by omega
    have hqy : qy = py - 1 := by omega
    subst hqy
    rw [if_pos hpos]
    simp

/-- The distance certificate is locally consistent on the default maze:
crossing one unit step between passable cells changes it by at most one
upward. -/
theorem dist_local : ∀ p ∈ allCells, ∀ q ∈ neighborsOf p,
    specPassable defaultGame p → specPassable defaultGame q →
    distAt q ≤ distAt p + 1 := by
  decide!

/-- Along any passable unit-step walk, the distance certificate of the last
position is bounded by the certificate of the first plus the number of
steps. -/
theorem distAt_le_of_chain (l : List Position) :
    ∀ p : Position, List.Chain unitStep p l →
      specPassable defaultGame p → (∀ q ∈ l, specPassable defaultGame q) →
      ∀ z, (p :: l).getLast? = some z → distAt z ≤ distAt p + l.length := by
  induction l with
  | nil =>
    intro p _ _ _ z hz
    simp at hz
    subst hz
    simp
  | cons q t ih =>
    intro p hchain hp hall z hz
    rw [List.chain_cons] at hchain
    have hq : specPassable defaultGame q := hall q (by simp)
    have hqt : ∀ r ∈ t, specPassable defaultGame r := fun r hr => hall r (by simp [hr])
    have hlast : (q :: t).getLast? = some z := by
      rw [List.getLast?_cons_cons] at hz
      exact hz
    have hstep : distAt q ≤ distAt p + 1 := by
      refine dist_local p ?_ q ?_ hp hq
      · exact mem_allCells (by exact hp.1) (by exact hp.2.1)
      · exact mem_neighborsOf hchain.1
    have htail := ih q hchain.2 hq hqt z hlast
    simp only [List.length_cons]
    omega

/-- Executable check that consecutive positions form unit steps. -/
def chainUnitB : Position → List Position → Bool
  | _, [] => true
  | p, q :: t => decide (unitStep p q) && chainUnitB q t

/-- `chainUnitB` decides `List.Chain unitStep`. -/
theorem chainUnitB_iff (l : List Position) : ∀ p : Position,
    chainUnitB p l = true ↔ List.Chain unitStep p l := by
  induction l with
  | nil =>
    intro p
    simp [chainUnitB]
  | cons q t ih =>
    intro p
    simp [chainUnitB, List.chain_cons, ih q]

/-- Any passable unit-step walk from the start of the default maze to its
end takes at least 29 steps. -/
theorem walk_length_lower (l : List Position)
    (hc : List.Chain unitStep defaultGame.start_pos l)
    (hp : ∀ q ∈ l, specPassable defaultGame q)
    (he : (defaultGame.start_pos :: l).getLast? = some defaultGame.end_pos) :
    29 ≤ l.length := by
  have hstart : specPassable defaultGame defaultGame.start_pos := by decide!
  have hbound := distAt_le_of_chain l defaultGame.start_pos hc hstart hp
    defaultGame.end_pos he
  have h0 : distAt defaultGame.start_pos = 0 := by decide!
  have h29 : distAt defaultGame.end_pos = 29 := by decide!
  omega

/-- C3: on the default maze, `find_shortest_path` returns a non-empty
sequence; consecutive positions (from the start on) differ by exactly one
cardinal unit step over non-Wall cells, the sequence ends at the end
position, and its length (29) is the minimum number of unit steps of any
passable walk from the start position to the end position. -/
theorem claim3_shortest_path :
    ∃ path, defaultGame.find_shortest_path = some path ∧ path ≠ [] ∧
      List.Chain unitStep defaultGame.start_pos path ∧
      (∀ q ∈ path, specPassable defaultGame q) ∧
      (defaultGame.start_pos :: path).getLast? = some defaultGame.end_pos ∧
      (∀ l, List.Chain unitStep defaultGame.start_pos l →
        (∀ q ∈ l, specPassable defaultGame q) →
        (defaultGame.start_pos :: l).getLast? = some defaultGame.end_pos →
        path.length ≤ l.length) := by
  refine ⟨dPath, find_default_eq, by decide, (chainUnitB_iff dPath defaultGame.start_pos).mp (by decide!), by decide!, by decide!, ?_⟩
  intro l hc hp he
  have h29 := walk_length_lower l hc hp he
  have hlen : dPath.length = 29 := by decide
  omega

/-- Inversion of the reconstruction loop: a successful rebuild prepends to
`acc` a block of positions none of which is the start, ending (when the
walk really moved) exactly at the position the rebuild began from. -/
theorem rebuildPath_some (startP : Position) (parent : List (List (Option Position))) :
    ∀ (fuel : Nat) (step : Position) (acc l : List Position),
      rebuildPath startP parent fuel step acc = some l →
      ∃ pre, l = pre ++ acc ∧ (∀ x ∈ pre, x ≠ startP) ∧
        (step = startP → pre = []) ∧
        (step ≠ startP → pre ≠ [] ∧ pre.getLast? = some step) := by
  intro fuel
  induction fuel with
  | zero =>
    intro step acc l h
    by_cases hs : step = startP
    · rw [rebuildPath, if_pos hs] at h
      refine ⟨[], ?_, by simp, fun _ => rfl, fun hne => absurd hs hne⟩
      simpa using (Option.some.inj h).symm
    · rw [rebuildPath, if_neg hs] at h
      exact absurd h (by simp)
  | succ f ih =>
    intro step acc l h
    by_cases hs : step = startP
    · rw [rebuildPath, if_pos hs] at h
      refine ⟨[], ?_, by simp, fun _ => rfl, fun hne => absurd hs hne⟩
      simpa using (Option.some.inj h).symm
    · rw [rebuildPath, if_neg hs] at h
      cases hpa : parentAt parent step.y step.x with
      | none =>
        rw [hpa] at h
        exact absurd h (by simp)
      | some p =>
        rw [hpa] at h
        obtain ⟨pre, hl, hne, _, _⟩ := ih p (step :: acc) l h
        refine ⟨pre ++ [step], ?_, ?_, fun hcon => absurd hcon hs, fun _ => ?_⟩
        · rw [hl, List.append_assoc]
          rfl
        · intro x hx
          rcases List.mem_append.mp hx with h1 | h2
          · exact hne x h1
          · rw [List.mem_singleton.mp h2]
            exact hs
        · exact ⟨by simp, by rw [List.getLast?_concat]⟩

/-- Inversion of the search loop: any successful search result came out of
the reconstruction loop started at the end position with an empty
accumulator. -/
theorem bfsLoop_some (w ht : Nat) (sp ep : Position) (pa : Position → Bool) :
    ∀ (fuel : Nat) (q v : List Position) (par : List (List (Option Position)))
      (l : List Position),
      bfsLoop w ht sp ep pa fuel q v par = some l →
      ∃ par2 f2, rebuildPath sp par2 f2 ep [] = some l := by
  intro fuel
  induction fuel with
  | zero =>
    intro q v par l hbl
    exact absurd hbl (by simp [bfsLoop])
  | succ f ih =>
    intro q v par l hbl
    cases q with
    | nil => exact absurd hbl (by simp [bfsLoop])
    | cons current rest =>
      rw [bfsLoop] at hbl
      by_cases hc : current = ep
      · rw [if_pos hc] at hbl
        subst hc
        exact ⟨par, w * ht + 1, hbl⟩
      · rw [if_neg hc] at hbl
        rcases he : bfsExpand w ht pa current rest v par with ⟨q2, v2, pa2⟩
        rw [he] at hbl
        exact ih q2 v2 pa2 l hbl

/-- C6 counterexample: the claim fails as stated.  On `MazeGame::new(3, 3)`
the start and end positions coincide, `find_shortest_path` returns
`Some([])`, and the empty sequence has no last element equal to the end
position. -/
theorem claim6_counterexample :
    ¬ (∀ (g : MazeGame) (path : List Position), g.find_shortest_path = some path →
        g.start_pos ∉ path ∧ path.getLast? = some g.end_pos) := by
  intro hall
  have h := (hall (MazeGame.new 3 3) [] (by decide!)).2
  simp at h

/-- C6 (amended): whenever `find_shortest_path` returns `Some(path)`, the
sequence excludes the start position; and whenever the start and end
positions differ (as they do in every game the program builds), the
sequence is non-empty and its last element is the end position. -/
theorem claim6_path_endpoints (g : MazeGame) (path : List Position)
    (h : g.find_shortest_path = some path) :
    g.start_pos ∉ path ∧
    (g.start_pos ≠ g.end_pos → path ≠ [] ∧ path.getLast? = some g.end_pos) := by
  unfold MazeGame.find_shortest_path at h
  obtain ⟨par2, f2, hr⟩ := bfsLoop_some _ _ _ _ _ _ _ _ _ _ h
  obtain ⟨pre, hl, hne, _, hpns⟩ := rebuildPath_some _ _ _ _ _ _ hr
  rw [List.append_nil] at hl
  subst hl
  constructor
  · intro hmem
    exact hne _ hmem rfl
  · intro hdiff
    exact hpns (Ne.symm hdiff)

/-- C6 witness: the path computed on the default game excludes the start
`(1,1)` and, the start differing from the end, is non-empty and ends at
`(18,13)`. -/
theorem claim6_witness :
    defaultGame.start_pos ∉ dPath ∧
    (defaultGame.start_pos ≠ defaultGame.end_pos →
      dPath ≠ [] ∧ dPath.getLast? = some defaultGame.end_pos) :=
  claim6_path_endpoints defaultGame dPath find_default_eq

/-- Full description of reading after a write: the written value inside the
grid, otherwise the old value (out-of-range writes change nothing). -/
theorem cellAt_setCell (grid : List (List Cell)) (y x : Nat) (c : Cell) (y2 x2 : Nat) :
    cellAt (setCell grid y x c) y2 x2 =
      if y2 = y ∧ x2 = x ∧ y < grid.length ∧ x < (grid.getD y []).length then c
      else cellAt grid y2 x2 := by
  unfold cellAt setCell
  by_cases hy : y2 = y
  · subst hy
    by_cases hl : y2 < grid.length
    · have hrow : (grid.set y2 ((grid.getD y2 []).set x c)).getD y2 [] =
          (grid.getD y2 []).set x c := by
        simp [List.getD_eq_getElem?_getD, List.getElem?_set_self
          (show y2 < grid.length from hl)]
      rw [hrow]
      by_cases hx : x2 = x
      · subst hx
        by_cases hxl : x2 < (grid.getD y2 []).length
        · rw [if_pos ⟨rfl, rfl, hl, hxl⟩]
          rw [List.getD_eq_getElem?_getD] at hxl
          simp [List.getD_eq_getElem?_getD, List.getElem?_set_self hxl]
        · rw [if_neg (fun hcon => hxl hcon.2.2.2)]
          rw [List.set_eq_of_length_le (Nat.le_of_not_lt hxl)]
      · rw [if_neg (fun hcon => hx hcon.2.1)]
        simp [List.getD_eq_getElem?_getD, List.getElem?_set_ne
          (show x ≠ x2 from fun hh => hx hh.symm)]
    · rw [if_neg (fun hcon => hl hcon.2.2.1)]
      have h1 : (grid.set y2 ((grid.getD y2 []).set x c)).getD y2 [] = ([] : List Cell) := by
        rw [List.set_eq_of_length_le (Nat.le_of_not_lt hl)]
        simp [List.getD_eq_getElem?_getD,
          List.getElem?_eq_none (Nat.le_of_not_lt hl)]
      have h2 : grid.getD y2 [] = ([] : List Cell) := by
        simp [List.getD_eq_getElem?_getD,
          List.getElem?_eq_none (Nat.le_of_not_lt hl)]
      rw [h1, h2]
  · rw [if_neg (fun hcon => hy hcon.1)]
    have h1 : (grid.set y ((grid.getD y []).set x c)).getD y2 [] = grid.getD y2 [] := by
      simp [List.getD_eq_getElem?_getD, List.getElem?_set_ne
        (show y ≠ y2 from fun hh => hy hh.symm)]
    rw [h1]

/-- Writing inside the grid then reading the same cell gives the value. -/
theorem cellAt_setCell_same (grid : List (List Cell)) (y x : Nat) (c : Cell)
    (hy : y < grid.length) (hx : x < (grid.getD y []).length) :
    cellAt (setCell grid y x c) y x = c := by
  rw [cellAt_setCell, if_pos ⟨rfl, rfl, hy, hx⟩]

/-- Writing a non-Wall value over a non-Wall cell leaves the set of Wall
cells untouched. -/
theorem walls_setCell (grid : List (List Cell)) (y x : Nat) (c : Cell)
    (hc : c ≠ Cell.Wall) (hold : cellAt grid y x ≠ Cell.Wall) (y2 x2 : Nat) :
    (cellAt (setCell grid y x c) y2 x2 = Cell.Wall ↔ cellAt grid y2 x2 = Cell.Wall) := by
  rw [cellAt_setCell]
  by_cases hcond : y2 = y ∧ x2 = x ∧ y < grid.length ∧ x < (grid.getD y []).length
  · rw [if_pos hcond, hcond.1, hcond.2.1]
    constructor
    · intro hcw
      exact absurd hcw hc
    · intro hgw
      exact absurd hgw hold
  · rw [if_neg hcond]

/-- The grid really is an `h × w` matrix. -/
def GridDims (grid : List (List Cell)) (w h : Nat) : Prop :=
  grid.length = h ∧ ∀ row ∈ grid, row.length = w

theorem GridDims.row_length {grid : List (List Cell)} {w h : Nat}
    (hg : GridDims grid w h) {y : Nat} (hy : y < h) :
    (grid.getD y []).length = w := by
  have hlt : y < grid.length := by rw [hg.1]; exact hy
  have hrow : grid.getD y [] = grid.get ⟨y, hlt⟩ := by
    simp [List.getD_eq_getElem?_getD, List.getElem?_eq_getElem hlt]
  rw [hrow]
  exact hg.2 _ (List.get_mem grid y hlt)

theorem GridDims.setCell_preserved {grid : List (List Cell)} {w h : Nat}
    (hg : GridDims grid w h) {y : Nat} (x : Nat) (c : Cell) (hy : y < h) :
    GridDims (setCell grid y x c) w h := by
  constructor
  · rw [setCell, List.length_set, hg.1]
  · intro row hrow
    rcases List.mem_or_eq_of_mem_set hrow with hmem | heq
    · exact hg.2 row hmem
    · rw [heq, List.length_set]
      exact hg.row_length hy

/-- `can_move` characterised: in bounds and not a Wall. -/
theorem can_move_iff (g : MazeGame) (p : Position) :
    g.can_move p = true ↔
      p.x < g.width ∧ p.y < g.height ∧ cellAt g.grid p.y p.x ≠ Cell.Wall := by
  unfold MazeGame.can_move
  by_cases hb : p.x ≥ g.width ∨ p.y ≥ g.height
  · rw [if_pos hb]
    constructor
    · intro hfalse
      exact absurd hfalse (by simp)
    · intro hcon
      rcases hb with hb | hb
      · omega
      · omega
  · rw [if_neg hb]
    push_neg at hb
    cases hc : cellAt g.grid p.y p.x <;> simp [hc, hb.1, hb.2]

/-- `can_move` agrees between games of equal dimensions whose Wall sets
agree cell for cell. -/
theorem can_move_congr (g1 g2 : MazeGame) (hw : g1.width = g2.width)
    (hh : g1.height = g2.height)
    (hwall : ∀ y x, cellAt g1.grid y x = Cell.Wall ↔ cellAt g2.grid y x = Cell.Wall)
    (p : Position) : g1.can_move p = g2.can_move p := by
  by_cases h1 : g1.can_move p = true
  · have h2 := (can_move_iff g1 p).mp h1
    rw [h1, Eq.symm ((can_move_iff g2 p).mpr
      ⟨hw ▸ h2.1, hh ▸ h2.2.1, fun hcon => h2.2.2 ((hwall p.y p.x).mpr hcon)⟩)]
  · rw [Bool.not_eq_true] at h1
    rw [h1]
    by_cases h2 : g2.can_move p = true
    · have h2i := (can_move_iff g2 p).mp h2
      have : g1.can_move p = true := (can_move_iff g1 p).mpr
        ⟨hw.symm ▸ h2i.1, hh.symm ▸ h2i.2.1,
         fun hcon => h2i.2.2 ((hwall p.y p.x).mp hcon)⟩
      rw [h1] at this
      exact absurd this (by simp)
    · rw [Bool.not_eq_true] at h2
      rw [h2]

/-- The search reads the game only through its width, height, start and end
positions and `can_move`. -/
theorem find_congr (g1 g2 : MazeGame)
    (hw : g1.width = g2.width) (hh : g1.height = g2.height)
    (hs : g1.start_pos = g2.start_pos) (he : g1.end_pos = g2.end_pos)
    (hcm : ∀ p, g1.can_move p = g2.can_move p) :
    g1.find_shortest_path = g2.find_shortest_path := by
  unfold MazeGame.find_shortest_path
  rw [hw, hh, hs, he, show (fun p => g1.can_move p) = (fun p => g2.can_move p)
    from funext hcm]

/-- The search never reads the path-display fields. -/
theorem find_display_irrel (g : MazeGame) (b : Bool) (l : List Position) :
    ({ g with show_path := b, path_positions := l } : MazeGame).find_shortest_path =
      g.find_shortest_path := rfl

/-- Every field of the state after `update_player_position`. -/
theorem update_fields (g : MazeGame) (np : Position) :
    (g.update_player_position np).width = g.width ∧
    (g.update_player_position np).height = g.height ∧
    (g.update_player_position np).start_pos = g.start_pos ∧
    (g.update_player_position np).end_pos = g.end_pos ∧
    (g.update_player_position np).player_pos = np ∧
    (g.update_player_position np).show_path = g.show_path ∧
    (g.update_player_position np).path_positions = g.path_positions ∧
    (g.update_player_position np).game_won =
      (if np = g.end_pos then true else g.game_won) ∧
    (g.update_player_position np).grid =
      setCell (if g.player_pos = g.start_pos
          then setCell g.grid g.player_pos.y g.player_pos.x Cell.Start
          else setCell g.grid g.player_pos.y g.player_pos.x Cell.Empty)
        np.y np.x Cell.Player := by
  unfold MazeGame.update_player_position
  by_cases he : np = g.end_pos <;> simp [he]

/-- Fields `move_player` can never change, whatever its outcome. -/
theorem move_player_fields (g : MazeGame) (dx dy : Int) :
    (g.move_player dx dy).2.width = g.width ∧
    (g.move_player dx dy).2.height = g.height ∧
    (g.move_player dx dy).2.start_pos = g.start_pos ∧
    (g.move_player dx dy).2.end_pos = g.end_pos ∧
    (g.move_player dx dy).2.show_path = g.show_path ∧
    (g.move_player dx dy).2.path_positions = g.path_positions := by
  unfold MazeGame.move_player
  by_cases hw : g.game_won
  · simp [hw]
  · simp only [hw, if_false, Bool.false_eq_true]
    by_cases hnn : 0 ≤ (g.player_pos.x : Int) + dx ∧ 0 ≤ (g.player_pos.y : Int) + dy
    · simp only [hnn, if_true]
      by_cases hok : (((g.player_pos.x : Int) + dx).toNat < g.width ∧
          ((g.player_pos.y : Int) + dy).toNat < g.height ∧
          g.can_move ⟨((g.player_pos.x : Int) + dx).toNat,
            ((g.player_pos.y : Int) + dy).toNat⟩ = true)
      · simp only [hok, if_true]
        obtain ⟨h1, h2, h3, h4, _, h6, h7, _, _⟩ := update_fields g
          ⟨((g.player_pos.x : Int) + dx).toNat, ((g.player_pos.y : Int) + dy).toNat⟩
        exact ⟨h1, h2, h3, h4, h6, h7⟩
      · simp [hok]
    · simp [hnn]

/-- `clear_path` only rewrites the two display fields. -/
theorem clear_path_eq (g : MazeGame) :
    g.clear_path = { g with show_path := false, path_positions := [] } := rfl

/-- Fields the three display operations can never change. -/
theorem toggle_path_fields (g : MazeGame) :
    g.toggle_path.grid = g.grid ∧
    g.toggle_path.player_pos = g.player_pos ∧
    g.toggle_path.start_pos = g.start_pos ∧
    g.toggle_path.end_pos = g.end_pos ∧
    g.toggle_path.width = g.width ∧
    g.toggle_path.height = g.height ∧
    g.toggle_path.game_won = g.game_won := by
  unfold MazeGame.toggle_path MazeGame.clear_path MazeGame.display_path
  by_cases hs : g.show_path
  · simp [hs]
  · simp only [hs, if_false, Bool.false_eq_true]
    cases hf : g.find_shortest_path <;> simp

/-- Fields `display_path` can never change. -/
theorem display_path_fields (g : MazeGame) :
    g.display_path.grid = g.grid ∧
    g.display_path.player_pos = g.player_pos ∧
    g.display_path.start_pos = g.start_pos ∧
    g.display_path.end_pos = g.end_pos ∧
    g.display_path.width = g.width ∧
    g.display_path.height = g.height ∧
    g.display_path.game_won = g.game_won := by
  unfold MazeGame.display_path
  cases hf : g.find_shortest_path <;> simp

/-- The invariant every state reachable from the default game satisfies. -/
structure DefaultInv (g : MazeGame) : Prop where
  width_eq : g.width = 20
  height_eq : g.height = 15
  start_eq : g.start_pos = ⟨1, 1⟩
  end_eq : g.end_pos = ⟨18, 13⟩
  dims : GridDims g.grid 20 15
  player_x : g.player_pos.x < 20
  player_y : g.player_pos.y < 15
  player_cell : cellAt g.grid g.player_pos.y g.player_pos.x ≠ Cell.Wall
  walls : ∀ y x, cellAt g.grid y x = Cell.Wall ↔ cellAt defaultGame.grid y x = Cell.Wall
  shown : g.show_path = true → g.find_shortest_path = some g.path_positions
  hidden : g.show_path = false → g.path_positions = []

/-- The freshly constructed default game satisfies the invariant. -/
theorem defaultInv_base : DefaultInv defaultGame := by
  refine ⟨rfl, rfl, rfl, rfl, ⟨by decide!, by decide!⟩, by decide!, by decide!,
    by decide!, fun y x => Iff.rfl, ?_, fun _ => rfl⟩
  intro hcon
  have : defaultGame.show_path = false := by decide!
  rw [this] at hcon
  exact absurd hcon (by simp)

/-- `update_player_position` to an in-bounds non-Wall cell preserves the
invariant. -/
theorem defaultInv_update (g : MazeGame) (hg : DefaultInv g) (np : Position)
    (hx : np.x < 20) (hy : np.y < 15)
    (hnw : cellAt g.grid np.y np.x ≠ Cell.Wall) :
    DefaultInv (g.update_player_position np) := by
  obtain ⟨hw, hh, hs, he, hp, hsp, hpp, _, hgr⟩ := update_fields g np
  have hc1 : (if g.player_pos = g.start_pos then Cell.Start else Cell.Empty) ≠
      Cell.Wall := by
    by_cases hps : g.player_pos = g.start_pos <;> simp [hps]
  have hgrid1 : (g.update_player_position np).grid =
      setCell (setCell g.grid g.player_pos.y g.player_pos.x
        (if g.player_pos = g.start_pos then Cell.Start else Cell.Empty))
        np.y np.x Cell.Player := by
    rw [hgr]
    by_cases hps : g.player_pos = g.start_pos <;> simp [hps]
  have walls1 : ∀ y x, cellAt (setCell g.grid g.player_pos.y g.player_pos.x
      (if g.player_pos = g.start_pos then Cell.Start else Cell.Empty)) y x =
        Cell.Wall ↔ cellAt g.grid y x = Cell.Wall :=
    walls_setCell _ _ _ _ hc1 hg.player_cell
  have dims1 : GridDims (setCell g.grid g.player_pos.y g.player_pos.x
      (if g.player_pos = g.start_pos then Cell.Start else Cell.Empty)) 20 15 :=
    hg.dims.setCell_preserved _ _ hg.player_y
  have walls2 : ∀ y x, cellAt (g.update_player_position np).grid y x = Cell.Wall ↔
      cellAt g.grid y x = Cell.Wall := by
    intro y x
    rw [hgrid1]
    rw [walls_setCell _ _ _ _ (by simp)
      (fun hcon => hnw ((walls1 np.y np.x).mp hcon)) y x]
    exact walls1 y x
  have dims2 : GridDims (g.update_player_position np).grid 20 15 := by
    rw [hgrid1]
    exact dims1.setCell_preserved _ _ hy
  refine ⟨hw ▸ hg.width_eq, hh ▸ hg.height_eq, hs ▸ hg.start_eq, he ▸ hg.end_eq,
    dims2, ?_, ?_, ?_, ?_, ?_, ?_⟩
  · rw [hp]
    exact hx
  · rw [hp]
    exact hy
  · rw [hp, hgrid1]
    rw [cellAt_setCell_same _ _ _ _ (by rw [dims1.1]; exact hy)
      (by rw [dims1.row_length hy]; exact hx)]
    simp
  · intro y x
    rw [walls2 y x]
    exact hg.walls y x
  · intro hshow
    rw [hsp] at hshow
    rw [hpp]
    rw [find_congr (g.update_player_position np) g (hw) (hh) (hs) (he)
      (can_move_congr _ _ (by rw [hw]) (by rw [hh])
        (fun y x => by rw [walls2 y x]))]
    exact hg.shown hshow
  · intro hshow
    rw [hsp] at hshow
    rw [hpp]
    exact hg.hidden hshow

/-- A move preserves the invariant. -/
theorem defaultInv_move (g : MazeGame) (hg : DefaultInv g) (dx dy : Int) :
    DefaultInv (g.move_player dx dy).2 := by
  unfold MazeGame.move_player
  by_cases hw : g.game_won
  · simp only [hw, if_true]
    exact hg
  · simp only [hw, if_false, Bool.false_eq_true]
    by_cases hnn : 0 ≤ (g.player_pos.x : Int) + dx ∧ 0 ≤ (g.player_pos.y : Int) + dy
    · simp only [hnn, if_true]
      by_cases hok : (((g.player_pos.x : Int) + dx).toNat < g.width ∧
          ((g.player_pos.y : Int) + dy).toNat < g.height ∧
          g.can_move ⟨((g.player_pos.x : Int) + dx).toNat,
            ((g.player_pos.y : Int) + dy).toNat⟩ = true)
      · simp only [hok, if_true]
        have hcm := (can_move_iff g _).mp hok.2.2
        exact defaultInv_update g hg _ (hg.width_eq ▸ hok.1)
          (hg.height_eq ▸ hok.2.1) hcm.2.2
      · simp only [hok, if_false]
        exact hg
    · simp only [hnn, if_false]
      exact hg

/-- Toggling the path display preserves the invariant. -/
theorem defaultInv_toggle (g : MazeGame) (hg : DefaultInv g) :
    DefaultInv g.toggle_path := by
  unfold MazeGame.toggle_path
  by_cases hs : g.show_path
  · simp only [hs, if_true]
    unfold MazeGame.clear_path
    exact ⟨hg.width_eq, hg.height_eq, hg.start_eq, hg.end_eq, hg.dims,
      hg.player_x, hg.player_y, hg.player_cell, hg.walls,
      fun hcon => absurd hcon (by simp), fun _ => rfl⟩
  · simp only [hs, if_false, Bool.false_eq_true]
    unfold MazeGame.display_path
    cases hf : g.find_shortest_path with
    | none => exact hg
    | some p =>
      refine ⟨hg.width_eq, hg.height_eq, hg.start_eq, hg.end_eq, hg.dims,
        hg.player_x, hg.player_y, hg.player_cell, hg.walls, ?_, ?_⟩
      · intro _
        rw [show ({ g with path_positions := p, show_path := true } :
            MazeGame).find_shortest_path = g.find_shortest_path from rfl, hf]
      · intro hcon
        exact absurd hcon (by simp)

/-- Resetting preserves (re-establishes) the invariant. -/
theorem defaultInv_reset (g : MazeGame) (hg : DefaultInv g) :
    DefaultInv g.reset_game := by
  unfold MazeGame.reset_game
  rw [hg.width_eq, hg.height_eq]
  exact defaultInv_base

/-- Every reachable state of the default game satisfies the invariant. -/
theorem reach_inv {g : MazeGame} (hg : Reach g) : DefaultInv g := by
  induction hg with
  | base => exact defaultInv_base
  | step op _ ih =>
    cases op with
    | mv dx dy => exact defaultInv_move _ ih dx dy
    | toggle => exact defaultInv_toggle _ ih
    | reset => exact defaultInv_reset _ ih

/-- C8: on every reachable state of the default game, toggling the path
display twice restores both the `show_path` flag and the stored path
sequence, and clearing an already-cleared display is a no-op. -/
theorem claim8_toggle_twice (g : MazeGame) (hg : Reach g) :
    g.toggle_path.toggle_path.show_path = g.show_path ∧
    g.toggle_path.toggle_path.path_positions = g.path_positions ∧
    g.clear_path.clear_path = g.clear_path := by
  have inv := reach_inv hg
  have key : g.toggle_path.toggle_path.show_path = g.show_path ∧
      g.toggle_path.toggle_path.path_positions = g.path_positions := by
    by_cases hs : g.show_path
    · have hfind := inv.shown hs
      have h1 : g.toggle_path = g.clear_path := by
        unfold MazeGame.toggle_path
        rw [if_pos hs]
      have h2 : g.clear_path.toggle_path = g.clear_path.display_path := by
        unfold MazeGame.toggle_path
        rw [if_neg (by simp [clear_path_eq])]
      have h3 : g.clear_path.find_shortest_path = g.find_shortest_path := rfl
      have h4 : g.clear_path.display_path =
          { g.clear_path with
            path_positions := g.path_positions
            show_path := true } := by
        unfold MazeGame.display_path
        rw [h3, hfind]
      rw [h1, h2, h4]
      exact ⟨hs.symm, rfl⟩
    · have hsf : g.show_path = false := by simpa using hs
      have hpath := inv.hidden hsf
      have h1 : g.toggle_path = g.display_path := by
        unfold MazeGame.toggle_path
        rw [if_neg hs]
      cases hf : g.find_shortest_path with
      | some p =>
        have h2 : g.display_path =
            { g with path_positions := p, show_path := true } := by
          unfold MazeGame.display_path
          rw [hf]
        have h3 : ({ g with path_positions := p, show_path := true } :
            MazeGame).toggle_path =
            ({ g with path_positions := p, show_path := true } :
              MazeGame).clear_path := by
          unfold MazeGame.toggle_path
          rw [if_pos rfl]
        rw [h1, h2, h3, clear_path_eq]
        exact ⟨hsf.symm, hpath.symm⟩
      | none =>
        have h2 : g.display_path = g := by
          unfold MazeGame.display_path
          rw [hf]
        rw [h1, h2, h1, h2]
        exact ⟨rfl, rfl⟩
  exact ⟨key.1, key.2, rfl⟩

/-- C8 witness: the double toggle on the freshly constructed default game. -/
theorem claim8_witness :
    defaultGame.toggle_path.toggle_path.show_path = defaultGame.show_path ∧
    defaultGame.toggle_path.toggle_path.path_positions =
      defaultGame.path_positions ∧
    defaultGame.clear_path.clear_path = defaultGame.clear_path :=
  claim8_toggle_twice defaultGame Reach.base

/-- C5: over the reachable states of the default game, a state that is not
won becomes won only through a `move_player` whose new player position is
the end position; a won state rejects every move unchanged; and no
operation other than `reset_game` leaves the won state. -/
theorem claim5_win_transitions (g : MazeGame) (hg : Reach g) :
    (∀ op, g.game_won = false → (applyOp op g).game_won = true →
      (∃ dx dy, op = Op.mv dx dy) ∧
      (applyOp op g).player_pos = (applyOp op g).end_pos) ∧
    (∀ dx dy, g.game_won = true → g.move_player dx dy = (false, g)) ∧
    (∀ op, op ≠ Op.reset → g.game_won = true →
      (applyOp op g).game_won = true) := by
  have inv := reach_inv hg
  refine ⟨?_, ?_, ?_⟩
  · intro op hnw hwon
    cases op with
    | mv dx dy =>
      refine ⟨⟨dx, dy, rfl⟩, ?_⟩
      simp only [applyOp] at hwon ⊢
      unfold MazeGame.move_player at hwon ⊢
      simp only [hnw, Bool.false_eq_true, if_false] at hwon ⊢
      by_cases hnn : 0 ≤ (g.player_pos.x : Int) + dx ∧
          0 ≤ (g.player_pos.y : Int) + dy
      · simp only [hnn, and_self, if_true] at hwon ⊢
        by_cases hok : (((g.player_pos.x : Int) + dx).toNat < g.width ∧
            ((g.player_pos.y : Int) + dy).toNat < g.height ∧
            g.can_move ⟨((g.player_pos.x : Int) + dx).toNat,
              ((g.player_pos.y : Int) + dy).toNat⟩ = true)
        · simp only [hok, and_self, if_true] at hwon ⊢
          obtain ⟨_, _, _, hend, hplayer, _, _, hwonf, _⟩ := update_fields g
            ⟨((g.player_pos.x : Int) + dx).toNat,
             ((g.player_pos.y : Int) + dy).toNat⟩
          rw [hwonf] at hwon
          by_cases he : (⟨((g.player_pos.x : Int) + dx).toNat,
              ((g.player_pos.y : Int) + dy).toNat⟩ : Position) = g.end_pos
          · rw [hplayer, hend, he]
          · rw [if_neg he] at hwon
            rw [hwon] at hnw
            exact absurd hnw (by simp)
        · simp only [hok, if_false] at hwon
          rw [hwon] at hnw
          exact absurd hnw (by simp)
      · simp only [hnn, if_false] at hwon
        rw [hwon] at hnw
        exact absurd hnw (by simp)
    | toggle =>
      exfalso
      rw [show (applyOp Op.toggle g) = g.toggle_path from rfl,
        (toggle_path_fields g).2.2.2.2.2.2, hnw] at hwon
      exact absurd hwon (by simp)
    | reset =>
      exfalso
      rw [show (applyOp Op.reset g) = g.reset_game from rfl] at hwon
      unfold MazeGame.reset_game at hwon
      rw [inv.width_eq, inv.height_eq] at hwon
      rw [show (MazeGame.new 20 15).game_won = false from by decide!] at hwon
      exact absurd hwon (by simp)
  · intro dx dy hwon
    unfold MazeGame.move_player
    simp [hwon]
  · intro op hne hwon
    cases op with
    | mv dx dy =>
      simp only [applyOp]
      unfold MazeGame.move_player
      simp [hwon]
    | toggle =>
      rw [show (applyOp Op.toggle g) = g.toggle_path from rfl,
        (toggle_path_fields g).2.2.2.2.2.2]
      exact hwon
    | reset => exact absurd rfl hne

/-- C5 witness: the transition properties instantiated at the freshly
constructed default game. -/
theorem claim5_witness :
    (∀ op, defaultGame.game_won = false →
      (applyOp op defaultGame).game_won = true →
      (∃ dx dy, op = Op.mv dx dy) ∧
      (applyOp op defaultGame).player_pos = (applyOp op defaultGame).end_pos) ∧
    (∀ dx dy, defaultGame.game_won = true →
      defaultGame.move_player dx dy = (false, defaultGame)) ∧
    (∀ op, op ≠ Op.reset → defaultGame.game_won = true →
      (applyOp op defaultGame).game_won = true) :=
  claim5_win_transitions defaultGame Reach.base

/-- The fields of a freshly constructed game, for arbitrary dimensions: the
won flag is already set exactly when the fixed start `(1,1)` coincides with
the fixed end `(width-2, height-2)`, i.e. exactly for a 3 × 3 game. -/
theorem new_fields (w h : Nat) :
    (MazeGame.new w h).width = w ∧ (MazeGame.new w h).height = h ∧
    (MazeGame.new w h).start_pos = ⟨1, 1⟩ ∧
    (MazeGame.new w h).end_pos = ⟨w - 2, h - 2⟩ ∧
    (MazeGame.new w h).player_pos = ⟨1, 1⟩ ∧
    (MazeGame.new w h).show_path = false ∧
    (MazeGame.new w h).path_positions = [] ∧
    ((MazeGame.new w h).game_won = true ↔ w = 3 ∧ h = 3) := by
  unfold MazeGame.new MazeGame.update_player_position
  by_cases he : (⟨1, 1⟩ : Position) = (⟨w - 2, h - 2⟩ : Position)
  · simp only [he, if_pos rfl]
    have hwh : w = 3 ∧ h = 3 := by
      have h1 := congrArg Position.x he
      have h2 := congrArg Position.y he
      simp only [] at h1 h2
      constructor <;> omega
    simp [hwh]
  · simp only [if_neg he]
    have hwh : ¬ (w = 3 ∧ h = 3) := by
      intro hcon
      exact he (by rw [hcon.1, hcon.2])
    simp [hwh]

/-- Moves and toggles never change the stored dimensions. -/
theorem reachMT_dims {w h : Nat} {g : MazeGame} (hg : ReachMT w h g) :
    g.width = w ∧ g.height = h := by
  induction hg with
  | base => exact ⟨(new_fields w h).1, (new_fields w h).2.1⟩
  | step op _ ih =>
    cases op with
    | mv dx dy =>
      exact ⟨(move_player_fields _ dx dy).1.trans ih.1,
        (move_player_fields _ dx dy).2.1.trans ih.2⟩
    | toggle =>
      exact ⟨(toggle_path_fields _).2.2.2.2.1.trans ih.1,
        (toggle_path_fields _).2.2.2.2.2.1.trans ih.2⟩

/-- C9 counterexample: the claim fails as stated.  `MazeGame::new(3, 3)` is
itself reachable (empty move/toggle sequence) and resetting it reconstructs
a game whose start coincides with its end, so `has_won()` is already true
right after `reset_game`. -/
theorem claim9_counterexample :
    ReachMT 3 3 (MazeGame.new 3 3) ∧
    (MazeGame.new 3 3).reset_game.has_won = true :=
  ⟨ReachMT.base, by decide!⟩

/-- C9 (amended): from any state reachable by moves and toggles from
`MazeGame.new w h`, `reset_game` rebuilds exactly the freshly constructed
game of the same dimensions, whose player position is its start position;
`has_won()` becomes false provided the fresh game is not already won, i.e.
except for the degenerate 3 × 3 maze whose start equals its end. -/
theorem claim9_reset (w h : Nat) (g : MazeGame) (hg : ReachMT w h g) :
    g.reset_game = MazeGame.new w h ∧
    g.reset_game.player_pos = (MazeGame.new w h).start_pos ∧
    (¬ (w = 3 ∧ h = 3) → g.reset_game.has_won = false) := by
  obtain ⟨hw, hh⟩ := reachMT_dims hg
  have hreset : g.reset_game = MazeGame.new w h := by
    unfold MazeGame.reset_game
    rw [hw, hh]
  refine ⟨hreset, ?_, ?_⟩
  · rw [hreset, (new_fields w h).2.2.2.2.1, (new_fields w h).2.2.1]
  · intro hne
    rw [hreset]
    unfold MazeGame.has_won
    by_cases hwon : (MazeGame.new w h).game_won = true
    · exact absurd ((new_fields w h).2.2.2.2.2.2.2.mp hwon) hne
    · simpa using hwon

/-- C9 witness: resetting the freshly constructed default game rebuilds the
default game, puts the player on the start cell and leaves the game not
won. -/
theorem claim9_witness :
    defaultGame.reset_game = MazeGame.new 20 15 ∧
    defaultGame.reset_game.player_pos = (MazeGame.new 20 15).start_pos ∧
    defaultGame.reset_game.has_won = false := by
  obtain ⟨h1, h2, h3⟩ := claim9_reset 20 15 defaultGame ReachMT.base
  exact ⟨h1, h2, h3 (by decide)⟩

/-- No grid cell holds the `Path` marker. -/
def NoPathCell (grid : List (List Cell)) : Prop :=
  ∀ y x, cellAt grid y x ≠ Cell.Path

/-- Writing any non-Path value preserves `NoPathCell`. -/
theorem noPath_setCell {grid : List (List Cell)} (hg : NoPathCell grid)
    {c : Cell} (hc : c ≠ Cell.Path) (y x : Nat) :
    NoPathCell (setCell grid y x c) := by
  intro y2 x2
  rw [cellAt_setCell]
  by_cases hcond : y2 = y ∧ x2 = x ∧ y < grid.length ∧
      x < (grid.getD y []).length
  · rw [if_pos hcond]
    exact hc
  · rw [if_neg hcond]
    exact hg y2 x2

/-- Plain induction principle for `List.foldl`. -/
theorem foldl_induction {α β : Type} (P : β → Prop) (f : β → α → β) :
    ∀ (l : List α) (init : β), P init → (∀ acc a, P acc → P (f acc a)) →
      P (l.foldl f init) := by
  intro l
  induction l with
  | nil =>
    intro init h _
    exact h
  | cons a t ih =>
    intro init h hstep
    exact ih (f init a) (hstep init a h) hstep

/-- The empty starting grid has no Path cells. -/
theorem noPath_initGrid (w h : Nat) : NoPathCell (initGrid w h) := by
  intro y x
  unfold initGrid cellAt
  by_cases hy : y < h
  · have hrow : (List.replicate h (List.replicate w Cell.Empty)).getD y [] =
        List.replicate w Cell.Empty := by
      simp [List.getD_eq_getElem?_getD, List.getElem?_replicate, hy]
    rw [hrow]
    by_cases hx : x < w
    · simp [List.getD_eq_getElem?_getD, List.getElem?_replicate, hx]
    · simp [List.getD_eq_getElem?_getD, List.getElem?_replicate, hx]
  · have hrow : (List.replicate h (List.replicate w Cell.Empty)).getD y [] =
        ([] : List Cell) := by
      simp [List.getD_eq_getElem?_getD, List.getElem?_replicate, hy]
    rw [hrow]
    simp [List.getD_eq_getElem?_getD]

/-- The layout overlay never writes a Path cell. -/
theorem overlayChar_ne (ch : Char) : overlayChar ch ≠ Cell.Path := by
  unfold overlayChar
  split_ifs <;> simp

/-- The border loops preserve the absence of Path cells. -/
theorem noPath_setBorders (w h : Nat) (grid : List (List Cell))
    (hg : NoPathCell grid) : NoPathCell (setBorders w h grid) := by
  unfold setBorders
  apply foldl_induction
  · apply foldl_induction
    · exact hg
    · intro acc a ha
      exact noPath_setCell (noPath_setCell ha (by simp) _ _) (by simp) _ _
  · intro acc a ha
    exact noPath_setCell (noPath_setCell ha (by simp) _ _) (by simp) _ _

/-- The layout overlay preserves the absence of Path cells. -/
theorem noPath_applyLayout (w h : Nat) (grid : List (List Cell))
    (hg : NoPathCell grid) : NoPathCell (applyLayout w h grid) := by
  unfold applyLayout
  apply foldl_induction _ _ _ _ hg
  intro acc yl ha
  apply foldl_induction _ _ _ _ ha
  intro acc2 xc ha2
  by_cases hcond : yl.1 < h ∧ xc.1 < w
  · rw [if_pos hcond]
    exact noPath_setCell ha2 (overlayChar_ne _) _ _
  · rw [if_neg hcond]
    exact ha2

/-- `update_player_position` writes only Start, Empty or Player cells. -/
theorem noPath_update (g : MazeGame) (hg : NoPathCell g.grid) (np : Position) :
    NoPathCell (g.update_player_position np).grid := by
  obtain ⟨_, _, _, _, _, _, _, _, hgr⟩ := update_fields g np
  rw [hgr]
  apply noPath_setCell _ (by simp)
  by_cases hps : g.player_pos = g.start_pos
  · rw [if_pos hps]
    exact noPath_setCell hg (by simp) _ _
  · rw [if_neg hps]
    exact noPath_setCell hg (by simp) _ _

/-- A constructed game of any dimensions has no Path cells. -/
theorem new_unfold (w h : Nat) :
    MazeGame.new w h = MazeGame.update_player_position
      { grid := setCell (setCell (applyLayout w h (setBorders w h (initGrid w h)))
          1 1 Cell.Start) (h - 2) (w - 2) Cell.End
        player_pos := ⟨1, 1⟩
        start_pos := ⟨1, 1⟩
        end_pos := ⟨w - 2, h - 2⟩
        width := w
        height := h
        show_path := false
        path_positions := []
        game_won := false } ⟨1, 1⟩ := rfl

/-- No constructed grid contains a Path cell. -/
theorem noPath_new (w h : Nat) : NoPathCell (MazeGame.new w h).grid := by
  rw [new_unfold]
  apply noPath_update
  show NoPathCell (setCell (setCell (applyLayout w h (setBorders w h
    (initGrid w h))) 1 1 Cell.Start) (h - 2) (w - 2) Cell.End)
  apply noPath_setCell _ (by simp)
  apply noPath_setCell _ (by simp)
  exact noPath_applyLayout w h _ (noPath_setBorders w h _ (noPath_initGrid w h))

/-- C10: the three path-display operations change only the `show_path` flag
and the `path_positions` sequence — grid, player, start, end, dimensions
and won flag are untouched — the constructed grid holds no `Cell::Path`
value, and no game operation ever writes one into the grid. -/
theorem claim10_display_frame :
    (∀ g : MazeGame,
      g.display_path.grid = g.grid ∧ g.display_path.player_pos = g.player_pos ∧
      g.display_path.start_pos = g.start_pos ∧
      g.display_path.end_pos = g.end_pos ∧ g.display_path.width = g.width ∧
      g.display_path.height = g.height ∧
      g.display_path.game_won = g.game_won) ∧
    (∀ g : MazeGame,
      g.clear_path.grid = g.grid ∧ g.clear_path.player_pos = g.player_pos ∧
      g.clear_path.start_pos = g.start_pos ∧
      g.clear_path.end_pos = g.end_pos ∧ g.clear_path.width = g.width ∧
      g.clear_path.height = g.height ∧
      g.clear_path.game_won = g.game_won) ∧
    (∀ g : MazeGame,
      g.toggle_path.grid = g.grid ∧ g.toggle_path.player_pos = g.player_pos ∧
      g.toggle_path.start_pos = g.start_pos ∧
      g.toggle_path.end_pos = g.end_pos ∧ g.toggle_path.width = g.width ∧
      g.toggle_path.height = g.height ∧
      g.toggle_path.game_won = g.game_won) ∧
    (∀ w h : Nat, NoPathCell (MazeGame.new w h).grid) ∧
    (∀ (g : MazeGame) (op : Op), NoPathCell g.grid →
      NoPathCell (applyOp op g).grid) := by
  refine ⟨display_path_fields, fun g => ⟨rfl, rfl, rfl, rfl, rfl, rfl, rfl⟩,
    toggle_path_fields, noPath_new, ?_⟩
  intro g op hg
  cases op with
  | mv dx dy =>
    unfold applyOp MazeGame.move_player
    by_cases hw : g.game_won
    · simp only [hw, if_true]
      exact hg
    · simp only [hw, if_false, Bool.false_eq_true]
      by_cases hnn : 0 ≤ (g.player_pos.x : Int) + dx ∧
          0 ≤ (g.player_pos.y : Int) + dy
      · simp only [hnn, and_self, if_true]
        by_cases hok : (((g.player_pos.x : Int) + dx).toNat < g.width ∧
            ((g.player_pos.y : Int) + dy).toNat < g.height ∧
            g.can_move ⟨((g.player_pos.x : Int) + dx).toNat,
              ((g.player_pos.y : Int) + dy).toNat⟩ = true)
        · simp only [hok, and_self, if_true]
          exact noPath_update g hg _
        · simp only [hok, if_false]
          exact hg
      · simp only [hnn, if_false]
        exact hg
  | toggle =>
    rw [show (applyOp Op.toggle g) = g.toggle_path from rfl,
      (toggle_path_fields g).1]
    exact hg
  | reset =>
    rw [show (applyOp Op.reset g) = g.reset_game from rfl]
    unfold MazeGame.reset_game
    exact noPath_new g.width g.height
